import Mathlib

/-!
Shallow embedding of the credit-ledger subsystem of doublewordai/waycast
(src/dwctl/src/db/handlers/credits.rs, src/dwctl/src/db/models/credits.rs,
src/dwctl/src/api/handlers/transactions.rs, src/dwctl/src/api/models/transactions.rs),
together with proofs of the specified properties.

Modelling conventions:
- UUIDs (transaction ids, user ids) are modelled as natural numbers carrying the
  total order that the SQL `ORDER BY ... id DESC` relies on; for the advisory-lock
  key derivation, which inspects the raw bytes of the user UUID, a UUID is modelled
  as its list of 16 bytes.
- `rust_decimal::Decimal` values are modelled as rationals (`Decimal` arithmetic on
  `+`/`-` is exact decimal arithmetic, a subring of `ℚ`).
- `created_at` timestamps are modelled as naturals.
- The database table `credits_transactions` is modelled as a list of rows, newest
  insertion first; each SQL statement of the handler is embedded as a pure function
  over that list.
-/

namespace Waycast

/-- Credit transaction type enum from `db/models/credits.rs`. -/
inductive CreditTransactionType where
  | Purchase
  | AdminGrant
  | AdminRemoval
  | Usage
deriving DecidableEq, Repr

/-- Database entity model for a credit transaction row
(struct `CreditTransaction` in `db/handlers/credits.rs`). -/
structure CreditTransaction where
  id : Nat
  user_id : Nat
  transaction_type : CreditTransactionType
  amount : ℚ
  balance_after : ℚ
  previous_transaction_id : Option Nat
  description : Option String
  created_at : Nat
deriving DecidableEq, Repr

/-- The `credits_transactions` table, newest inserted row first. -/
abbrev Ledger := List CreditTransaction

/-- Database request for creating a new credit transaction
(struct `CreditTransactionCreateDBRequest` in `db/models/credits.rs`). -/
structure CreditTransactionCreateDBRequest where
  user_id : Nat
  transaction_type : CreditTransactionType
  amount : ℚ
  description : Option String
deriving DecidableEq, Repr

/-- Modelled from the spec: the database error taxonomy of `db/errors.rs` (the file
is not under `src/`; only its uses are). The spec distinguishes the check-constraint
business-rule rejection from infrastructure failure, and the tests in
`db/handlers/credits.rs` match on `DbError::CheckViolation`. -/
inductive DbError where
  | CheckViolation
  | Infrastructure
deriving DecidableEq, Repr

instance {ε : Type} {α : Type} [DecidableEq ε] [DecidableEq α] :
    DecidableEq (Except ε α) := fun a b =>
  match a, b with
  | Except.ok x, Except.ok y =>
      if h : x = y then isTrue (by rw [h]) else isFalse (fun hc => h (by injection hc))
  | Except.ok _, Except.error _ => isFalse (fun hc => Except.noConfusion hc)
  | Except.error _, Except.ok _ => isFalse (fun hc => Except.noConfusion hc)
  | Except.error e, Except.error f =>
      if h : e = f then isTrue (by rw [h]) else isFalse (fun hc => h (by injection hc))

/-- Rows of the table belonging to one user (`WHERE user_id = $1`). -/
def userTxs (l : Ledger) (u : Nat) : List CreditTransaction :=
  l.filter (fun t => t.user_id == u)

/-- Boolean comparator embedding the SQL ordering `ORDER BY created_at DESC, id DESC`:
`beforeTx a b` holds when row `a` sorts no later than row `b` in the query output,
i.e. when the key `(created_at, id)` of `a` is greater than or equal to that of `b`. -/
def beforeTx (a b : CreditTransaction) : Bool :=
  decide (b.created_at < a.created_at) ||
    (decide (a.created_at = b.created_at) && decide (b.id ≤ a.id))

/-- The sort order as a decidable relation, for use with `List.insertionSort`. -/
def beTxRel : CreditTransaction → CreditTransaction → Prop :=
  fun a b => beforeTx a b = true

instance : DecidableRel beTxRel := fun a b => by
  unfold beTxRel; infer_instance

/-- Result list of a query sorting the given rows by `created_at DESC, id DESC`. -/
def sortedDesc (ts : List CreditTransaction) : List CreditTransaction :=
  List.insertionSort beTxRel ts

/-- Head of a user's chain: the row selected by
`SELECT ... WHERE user_id = $1 ORDER BY created_at DESC, id DESC LIMIT 1`
(lines 84-100 and 134-145 of `db/handlers/credits.rs`), `none` when the user has
no rows (the `RowNotFound` / `fetch_optional` empty case). -/
def chainHead (l : Ledger) (u : Nat) : Option CreditTransaction :=
  (sortedDesc (userTxs l u)).head?

/-- Strict comparison of the `(created_at, id)` sort keys: `keyLt a b` means row `a`
is strictly earlier than row `b`. -/
def keyLt (a b : CreditTransaction) : Prop :=
  a.created_at < b.created_at ∨ (a.created_at = b.created_at ∧ a.id < b.id)

instance (a b : CreditTransaction) : Decidable (keyLt a b) := by
  unfold keyLt; infer_instance

/-- Balance update rule of `create_transaction` (lines 102-106 of
`db/handlers/credits.rs`): additive types add the amount to the previous balance,
subtractive types subtract it. -/
def signedApply (previous : ℚ) (tt : CreditTransactionType) (amount : ℚ) : ℚ :=
  match tt with
  | CreditTransactionType.AdminGrant | CreditTransactionType.Purchase => previous + amount
  | CreditTransactionType.AdminRemoval | CreditTransactionType.Usage => previous - amount

/-- The `current_balance` read under the lock: the chain head's `balance_after`,
or `Decimal::ZERO` when the user has no prior transaction (line 97-98 of
`db/handlers/credits.rs`). -/
def currentBalanceOf (l : Ledger) (u : Nat) : ℚ :=
  match chainHead l u with
  | some t => t.balance_after
  | none => 0

/-- The balance an attempted `create_transaction` call would write. -/
def attemptedBalance (l : Ledger) (request : CreditTransactionCreateDBRequest) : ℚ :=
  signedApply (currentBalanceOf l request.user_id) request.transaction_type request.amount

/-- Embedding of `Credits::create_transaction` (lines 56-129 of
`db/handlers/credits.rs`). Under the per-user advisory lock the handler reads the
chain head, computes the new balance by transaction type, and inserts the new row;
`newId` models the UUID the database generates for the row and `now` the
server-assigned `created_at`. The non-negativity rejection is modelled from the
spec: the check constraint on `balance_after` lives in a migration that is not
under `src/` (the source comments at line 108 and the tests rely on it); a violated
constraint fails the insert, the enclosing database transaction rolls back (no
ledger returned), and `DbError::CheckViolation` is surfaced. -/
def create_transaction (l : Ledger) (request : CreditTransactionCreateDBRequest)
    (newId : Nat) (now : Nat) : Except DbError (Ledger × CreditTransaction) :=
  let current_balance : ℚ :=
    match chainHead l request.user_id with
    | some t => t.balance_after
    | none => 0
  let last_transaction_id : Option Nat :=
    match chainHead l request.user_id with
    | some t => some t.id
    | none => none
  let new_balance : ℚ :=
    match request.transaction_type with
    | CreditTransactionType.AdminGrant | CreditTransactionType.Purchase =>
        current_balance + request.amount
    | CreditTransactionType.AdminRemoval | CreditTransactionType.Usage =>
        current_balance - request.amount
  if new_balance < 0 then
    Except.error DbError.CheckViolation
  else
    let tx : CreditTransaction :=
      { id := newId
        user_id := request.user_id
        transaction_type := request.transaction_type
        amount := request.amount
        balance_after := new_balance
        previous_transaction_id := last_transaction_id
        description := request.description
        created_at := now }
    Except.ok (tx :: l, tx)

/-- Embedding of `Credits::get_user_balance` (lines 133-148): latest
`balance_after` for the user, `Decimal::ZERO` when no row exists. -/
def get_user_balance (l : Ledger) (u : Nat) : ℚ :=
  match chainHead l u with
  | some t => t.balance_after
  | none => 0

/-- Embedding of `Credits::list_user_transactions` (lines 178-197):
`ORDER BY created_at DESC, id DESC OFFSET $2 LIMIT $3` over the user's rows.
The Rust `skip`/`limit` are `i64`; the claims only concern non-negative values,
so they are modelled as naturals. -/
def list_user_transactions (l : Ledger) (u : Nat) (skip limit : Nat) :
    List CreditTransaction :=
  ((sortedDesc (userTxs l u)).drop skip).take limit

/-- Rows returned by the bulk-balance SQL of `Credits::get_users_balances_bulk`
(lines 151-161): `SELECT DISTINCT ON (user_id) user_id, balance_after ... WHERE
user_id = ANY($1) ORDER BY user_id, created_at DESC, id DESC` — for each distinct
requested user that has rows, the chain head's `(user_id, balance_after)` pair. -/
def bulkRows (l : Ledger) (user_ids : List Nat) : List (Nat × ℚ) :=
  user_ids.dedup.filterMap
    (fun u => (chainHead l u).map (fun h => (u, h.balance_after)))

/-- Embedding of `Credits::get_users_balances_bulk` (lines 150-175). The map is
built from the bulk rows; each stored `Decimal` balance is converted to `f64` via
`to_f64()`, and a failed conversion (`None`) is replaced by `0.0` after logging
(lines 167-170) — no error is returned. The partial conversion is a parameter
`conv`, since `f64` itself is outside the embedding; its result values are read
as exact rationals. -/
def get_users_balances_bulk (conv : ℚ → Option ℚ) (l : Ledger)
    (user_ids : List Nat) : List (Nat × ℚ) :=
  (bulkRows l user_ids).map (fun p => (p.1, (conv p.2).getD 0))

/-- A user UUID as its 16 raw bytes (`uuid.as_bytes()`). -/
abbrev UuidBytes := List Nat

/-- Well-formedness of a modelled UUID: 16 bytes, each below 256. -/
def UuidWF (u : UuidBytes) : Prop :=
  u.length = 16 ∧ ∀ b ∈ u, b < 256

instance (u : UuidBytes) : Decidable (UuidWF u) := by
  unfold UuidWF; infer_instance

/-- Big-endian interpretation of 8 bytes as a 64-bit unsigned value
(the `u64` layout underlying `i64::from_be_bytes`). -/
def fromBeBytes8 (b0 b1 b2 b3 b4 b5 b6 b7 : Nat) : Nat :=
  ((((((b0 * 256 + b1) * 256 + b2) * 256 + b3) * 256 + b4) * 256 + b5) * 256 + b6)
    * 256 + b7

/-- Reinterpretation of a 64-bit unsigned value as a signed `i64`
(two's complement), the value `i64::from_be_bytes` produces. -/
def toI64 (n : Nat) : Int :=
  if n < 2 ^ 63 then (n : Int) else (n : Int) - 2 ^ 64

/-- The advisory-lock key of `create_transaction` (lines 60-72 of
`db/handlers/credits.rs`): `i64::from_be_bytes` of the first 8 bytes of the
user's UUID. -/
def lock_key (u : UuidBytes) : Int :=
  toI64 (fromBeBytes8 (u.getD 0 0) (u.getD 1 0) (u.getD 2 0) (u.getD 3 0)
    (u.getD 4 0) (u.getD 5 0) (u.getD 6 0) (u.getD 7 0))

/-- Admin API transaction type (enum `TransactionType` in
`api/models/transactions.rs`): only the two admin types exist. -/
inductive ApiTransactionType where
  | AdminGrant
  | AdminRemoval
deriving DecidableEq, Repr

/-- The `From<&TransactionType> for CreditTransactionType` mapping
(lines 19-26 of `api/models/transactions.rs`). -/
def ApiTransactionType.toCredit : ApiTransactionType → CreditTransactionType
  | ApiTransactionType.AdminGrant => CreditTransactionType.AdminGrant
  | ApiTransactionType.AdminRemoval => CreditTransactionType.AdminRemoval

/-- Admin API request body (struct `CreditTransactionCreate` in
`api/models/transactions.rs`). -/
structure CreditTransactionCreate where
  user_id : Nat
  transaction_type : ApiTransactionType
  amount : ℚ
  description : Option String
deriving DecidableEq, Repr

/-- Modelled from the spec: the API error type of `errors.rs` (the file is not
under `src/`). The handler in `api/handlers/transactions.rs` constructs the
`BadRequest` variant carrying a message for validation failures and forwards
database errors; the spec requires validation errors to be client errors distinct from
storage-layer outcomes. -/
inductive ApiError where
  | BadRequest (message : String)
  | Database (e : DbError)
deriving DecidableEq, Repr

/-- Embedding of the admin API handler `create_transaction`
(lines 43-69 of `api/handlers/transactions.rs`): the amount is validated to be
positive before the repository layer is invoked; otherwise the request is mapped
into a `CreditTransactionCreateDBRequest` (with the admin type mapped through
`From`) and handed to `Credits::create_transaction`. The returned row (the
`CreditTransactionResponse` conversion is a field-for-field copy) is produced on
success. -/
def api_create_transaction (l : Ledger) (data : CreditTransactionCreate)
    (newId : Nat) (now : Nat) : Except ApiError (Ledger × CreditTransaction) :=
  if data.amount ≤ 0 then
    Except.error (ApiError.BadRequest ("Amount must be greater than zero"))
  else
    let db_request : CreditTransactionCreateDBRequest :=
      { user_id := data.user_id
        transaction_type := data.transaction_type.toCredit
        amount := data.amount
        description := data.description }
    match create_transaction l db_request newId now with
    | Except.ok (l2, tx) => Except.ok (l2, tx)
    | Except.error e => Except.error (ApiError.Database e)

/-- Freshness guarantees the database provides for a new row: the generated UUID
is not already a row id, and the new row's `(created_at, id)` sort key is strictly
larger than that of every existing row of the same user (the server-assigned
`created_at` of an append serialized after all earlier appends of the user, with
`id` breaking ties). -/
def freshFor (l : Ledger) (u : Nat) (newId : Nat) (now : Nat) : Prop :=
  (∀ t ∈ l, t.id ≠ newId) ∧
    (∀ t ∈ userTxs l u, t.created_at < now ∨ (t.created_at = now ∧ t.id < newId))

/-- Ledger states reachable from the empty table by successful
`create_transaction` calls (the table is append-only; rows are never updated or
deleted). -/
inductive Reachable : Ledger → Prop where
  | nil : Reachable []
  | create {l : Ledger} {request : CreditTransactionCreateDBRequest}
      {newId : Nat} {now : Nat} {l2 : Ledger} {tx : CreditTransaction} :
      Reachable l → freshFor l request.user_id newId now →
      create_transaction l request newId now = Except.ok (l2, tx) → Reachable l2

/-- Chain link between a row and its predecessor row: the back pointer matches and
the stored running balance is the predecessor's balance adjusted by the row's
signed amount. -/
def linked (a b : CreditTransaction) : Prop :=
  a.previous_transaction_id = some b.id ∧
    a.balance_after = signedApply b.balance_after a.transaction_type a.amount

/-- One step of walking a transaction chain: resolve the
`previous_transaction_id` back pointer in the table. -/
def chainStep (l : Ledger) (t : CreditTransaction) : Option CreditTransaction :=
  match t.previous_transaction_id with
  | none => none
  | some p => l.find? (fun x => x.id == p)

/-- Fuel-bounded walk of a transaction chain from a starting row, following
`previous_transaction_id` through the table. -/
def walk (l : Ledger) : Nat → Option CreditTransaction → List CreditTransaction
  | 0, _ => []
  | Nat.succ _, none => []
  | Nat.succ fuel, some t => t :: walk l fuel (chainStep l t)

/-- Sample request: an admin grant of 100 credits to user 0. -/
def sampleGrantRequest : CreditTransactionCreateDBRequest :=
  { user_id := 0
    transaction_type := CreditTransactionType.AdminGrant
    amount := 100
    description := none }

/-- The row `create_transaction` inserts for `sampleGrantRequest` on an empty table. -/
def sampleGrantTx : CreditTransaction :=
  { id := 1
    user_id := 0
    transaction_type := CreditTransactionType.AdminGrant
    amount := 100
    balance_after := 100
    previous_transaction_id := none
    description := none
    created_at := 1 }

/-- A one-row sample ledger. -/
def sampleLedger : Ledger := [sampleGrantTx]

/-- Sample request: an admin removal of 1 credit from user 0. -/
def sampleRemovalRequest : CreditTransactionCreateDBRequest :=
  { user_id := 0
    transaction_type := CreditTransactionType.AdminRemoval
    amount := 1
    description := none }

/-- Sample admin API request with a zero amount. -/
def sampleZeroApiRequest : CreditTransactionCreate :=
  { user_id := 0
    transaction_type := ApiTransactionType.AdminGrant
    amount := 0
    description := none }

/-- Sample admin API request granting 100 credits to user 0. -/
def sampleApiGrantRequest : CreditTransactionCreate :=
  { user_id := 0
    transaction_type := ApiTransactionType.AdminGrant
    amount := 100
    description := none }

/-- The all-zero UUID. -/
def uuidZero : UuidBytes := [0, 0, 0, 0, 0, 0, 0, 0, 0, 0, 0, 0, 0, 0, 0, 0]

/-- A UUID differing from `uuidZero` only in its last byte. -/
def uuidLastByteOne : UuidBytes := [0, 0, 0, 0, 0, 0, 0, 0, 0, 0, 0, 0, 0, 0, 0, 1]

/-- Structural well-formedness of one user's row list (newest first): strictly
descending `(created_at, id)` keys, consecutive rows linked by back pointer and
balance equation, and the oldest row having no back pointer. -/
def ChainOK (c : List CreditTransaction) : Prop :=
  c.Pairwise (fun a b => keyLt b a) ∧ c.Chain' linked ∧
    ∀ t, c.getLast? = some t → t.previous_transaction_id = none

/-- Ledger invariant maintained by the append protocol: distinct row ids,
non-negative stored balances, and per-user chain well-formedness. -/
def Inv (l : Ledger) : Prop :=
  (l.map (fun t => t.id)).Nodup ∧ (∀ t ∈ l, 0 ≤ t.balance_after) ∧
    ∀ u : Nat, ChainOK (userTxs l u)

/-!
Helper lemmas about the sort order, the chain head, and chain walking.
-/

theorem beforeTx_refl (a : CreditTransaction) : beforeTx a a = true := by
  simp [beforeTx]

theorem beforeTx_trans (a b c : CreditTransaction)
    (hab : beforeTx a b = true) (hbc : beforeTx b c = true) : beforeTx a c = true := by
  simp [beforeTx] at *
  omega

theorem beforeTx_total (a b : CreditTransaction) :
    (beforeTx a b || beforeTx b a) = true := by
  simp [beforeTx]
  omega

theorem beforeTx_of_keyLt {a b : CreditTransaction} (h : keyLt b a) :
    beforeTx a b = true := by
  simp [beforeTx]
  rcases h with h | ⟨h1, h2⟩
  · omega
  · omega

instance : IsTotal CreditTransaction beTxRel :=
  ⟨fun a b => by
    unfold beTxRel
    rcases Bool.or_eq_true_iff.mp (beforeTx_total a b) with h | h
    · exact Or.inl h
    · exact Or.inr h⟩

instance : IsTrans CreditTransaction beTxRel :=
  ⟨fun a b c hab hbc => beforeTx_trans a b c hab hbc⟩

theorem sortedDesc_perm (ts : List CreditTransaction) : (sortedDesc ts).Perm ts :=
  List.perm_insertionSort beTxRel ts

theorem sortedDesc_pairwise (ts : List CreditTransaction) :
    (sortedDesc ts).Pairwise (fun a b => beforeTx a b = true) :=
  List.sorted_insertionSort beTxRel ts

theorem sortedDesc_eq_self {c : List CreditTransaction}
    (h : c.Pairwise (fun a b => keyLt b a)) : sortedDesc c = c :=
  List.Sorted.insertionSort_eq (h.imp fun hab => beforeTx_of_keyLt hab)

theorem chainHead_spec {l : Ledger} {u : Nat} {h : CreditTransaction}
    (hh : chainHead l u = some h) :
    h ∈ userTxs l u ∧ ∀ t ∈ userTxs l u, beforeTx h t = true := by
  unfold chainHead at hh
  cases hs : sortedDesc (userTxs l u) with
  | nil => rw [hs] at hh; cases hh
  | cons a rest =>
    rw [hs] at hh
    have ha : a = h := by simpa using hh
    subst ha
    have hperm := sortedDesc_perm (userTxs l u)
    rw [hs] at hperm
    have hpw := sortedDesc_pairwise (userTxs l u)
    rw [hs] at hpw
    constructor
    · exact hperm.subset (List.mem_cons_self a rest)
    · intro t ht
      rcases List.mem_cons.mp (hperm.mem_iff.mpr ht) with rfl | hmem
      · exact beforeTx_refl t
      · exact (List.pairwise_cons.mp hpw).1 t hmem

theorem chainHead_none_iff {l : Ledger} {u : Nat} :
    chainHead l u = none ↔ userTxs l u = [] := by
  unfold chainHead
  constructor
  · intro h
    have hs : sortedDesc (userTxs l u) = [] := by
      cases hs : sortedDesc (userTxs l u) with
      | nil => rfl
      | cons a rest => rw [hs] at h; cases h
    have hperm := sortedDesc_perm (userTxs l u)
    rw [hs] at hperm
    exact hperm.symm.eq_nil
  · intro h
    rw [h]
    rfl

theorem chainHead_eq_head_of_pairwise {l : Ledger} {u : Nat}
    (hp : (userTxs l u).Pairwise (fun a b => keyLt b a)) :
    chainHead l u = (userTxs l u).head? := by
  unfold chainHead
  rw [sortedDesc_eq_self hp]

theorem userTxs_cons_self {t : CreditTransaction} {l : Ledger} {u : Nat}
    (h : t.user_id = u) : userTxs (t :: l) u = t :: userTxs l u := by
  simp [userTxs, List.filter_cons, h]

theorem userTxs_cons_ne {t : CreditTransaction} {l : Ledger} {u : Nat}
    (h : t.user_id ≠ u) : userTxs (t :: l) u = userTxs l u := by
  simp [userTxs, List.filter_cons, h]

theorem find?_of_nodup_ids {l : Ledger} (hN : (l.map (fun t => t.id)).Nodup)
    {t : CreditTransaction} (ht : t ∈ l) :
    l.find? (fun x => x.id == t.id) = some t := by
  induction l with
  | nil => cases ht
  | cons a rest ih =>
    rw [List.map_cons, List.nodup_cons] at hN
    rcases List.mem_cons.mp ht with rfl | hmem
    · simp [List.find?]
    · have hne : (a.id == t.id) = false := by
        refine beq_eq_false_iff_ne.mpr ?_
        intro he
        exact hN.1 (he ▸ List.mem_map_of_mem (fun x => x.id) hmem)
      rw [List.find?]
      rw [hne]
      exact ih hN.2 hmem

theorem create_ok_elim {l : Ledger} {request : CreditTransactionCreateDBRequest}
    {newId now : Nat} {l2 : Ledger} {tx : CreditTransaction}
    (h : create_transaction l request newId now = Except.ok (l2, tx)) :
    l2 = tx :: l ∧ tx.id = newId ∧ tx.user_id = request.user_id ∧
      tx.transaction_type = request.transaction_type ∧ tx.amount = request.amount ∧
      tx.description = request.description ∧ tx.created_at = now ∧
      tx.previous_transaction_id = (chainHead l request.user_id).map (fun t => t.id) ∧
      tx.balance_after = attemptedBalance l request ∧ 0 ≤ tx.balance_after := by
  simp only [create_transaction] at h
  split at h
  · cases h
  · rename_i hnn
    rw [Except.ok.injEq, Prod.mk.injEq] at h
    obtain ⟨h1, h2⟩ := h
    subst h2
    subst h1
    refine ⟨rfl, rfl, rfl, rfl, rfl, rfl, rfl, ?_, ?_, ?_⟩
    · cases chainHead l request.user_id <;> rfl
    · unfold attemptedBalance signedApply currentBalanceOf
      cases request.transaction_type <;> rfl
    · exact le_of_not_lt hnn

theorem create_error_of_neg {l : Ledger} {request : CreditTransactionCreateDBRequest}
    {newId now : Nat} (h : attemptedBalance l request < 0) :
    create_transaction l request newId now = Except.error DbError.CheckViolation := by
  unfold attemptedBalance signedApply currentBalanceOf at h
  simp only [create_transaction]
  split
  · rfl
  · rename_i hnn
    exact absurd h hnn

theorem inv_create {l : Ledger} {request : CreditTransactionCreateDBRequest}
    {newId now : Nat} {l2 : Ledger} {tx : CreditTransaction}
    (hInv : Inv l) (hf : freshFor l request.user_id newId now)
    (hok : create_transaction l request newId now = Except.ok (l2, tx)) : Inv l2 := by
  obtain ⟨hl2, hid, huser, htt, hamt, hdesc, hcre, hprev, hbal, hnn⟩ := create_ok_elim hok
  subst hl2
  obtain ⟨hNodup, hPos, hChain⟩ := hInv
  refine ⟨?_, ?_, ?_⟩
  · rw [List.map_cons, List.nodup_cons]
    refine ⟨?_, hNodup⟩
    intro hmem
    obtain ⟨t, ht, hte⟩ := List.mem_map.mp hmem
    exact hf.1 t ht (by rw [hte, hid])
  · intro t ht
    rcases List.mem_cons.mp ht with rfl | h2
    · exact hnn
    · exact hPos t h2
  · intro u
    by_cases hu : u = request.user_id
    · subst hu
      have hins : userTxs (tx :: l) request.user_id = tx :: userTxs l request.user_id :=
        userTxs_cons_self huser
      rw [hins]
      obtain ⟨hP, hC, hL⟩ := hChain request.user_id
      have hHead : chainHead l request.user_id = (userTxs l request.user_id).head? :=
        chainHead_eq_head_of_pairwise hP
      refine ⟨?_, ?_, ?_⟩
      · rw [List.pairwise_cons]
        refine ⟨?_, hP⟩
        intro t ht
        have hk := hf.2 t ht
        unfold keyLt
        rw [hcre, hid]
        exact hk
      · cases hc : userTxs l request.user_id with
        | nil => simp
        | cons a rest =>
          rw [List.chain'_cons]
          refine ⟨?_, hc ▸ hC⟩
          have hhead : chainHead l request.user_id = some a := by rw [hHead, hc]; rfl
          constructor
          · rw [hprev, hhead]
            rfl
          · rw [hbal, htt, hamt]
            unfold attemptedBalance currentBalanceOf
            rw [hhead]
      · intro t htl
        cases hc : userTxs l request.user_id with
        | nil =>
          rw [hc] at htl
          have ht : t = tx := by simpa using htl.symm
          subst ht
          rw [hprev, hHead, hc]
          rfl
        | cons a rest =>
          rw [hc] at htl
          rw [List.getLast?_cons_cons] at htl
          exact hL t (hc ▸ htl)
    · have hne : tx.user_id ≠ u := by
        rw [huser]
        exact fun he => hu he.symm
      rw [userTxs_cons_ne hne]
      exact hChain u

theorem inv_of_reachable {l : Ledger} (h : Reachable l) : Inv l := by
  induction h with
  | nil =>
    refine ⟨by simp, by simp, fun u => ?_⟩
    refine ⟨?_, ?_, ?_⟩ <;> simp [userTxs]
  | create hr hf hok ih => exact inv_create ih hf hok

theorem walk_none (l : Ledger) (n : Nat) : walk l n none = [] := by
  cases n <;> rfl

theorem walk_eq_of_chain {l : Ledger} (hN : (l.map (fun t => t.id)).Nodup)
    (c : List CreditTransaction) :
    (∀ t ∈ c, t ∈ l) → c.Chain' linked →
    (∀ t, c.getLast? = some t → t.previous_transaction_id = none) →
    ∀ k : Nat, walk l (c.length + k) c.head? = c := by
  induction c with
  | nil =>
    intro _ _ _ k
    simpa using walk_none l k
  | cons t rest ih =>
    intro hsub hchain hlast k
    have hfuel : (t :: rest).length + k = Nat.succ (rest.length + k) := by
      simp [List.length_cons]
      omega
    rw [hfuel]
    cases rest with
    | nil =>
      have hpn : t.previous_transaction_id = none := hlast t rfl
      simp [walk, chainStep, hpn, walk_none]
    | cons b rs =>
      have hlink : linked t b := (List.chain'_cons.mp hchain).1
      have hstep : chainStep l t = some b := by
        unfold chainStep
        rw [hlink.1]
        exact find?_of_nodup_ids hN (hsub b (by simp))
      show t :: walk l ((b :: rs).length + k) (chainStep l t) = t :: (b :: rs)
      rw [hstep]
      have hrec := ih (fun x hx => hsub x (List.mem_cons_of_mem t hx))
        (List.chain'_cons.mp hchain).2
        (fun x hx => hlast x (by rw [List.getLast?_cons_cons]; exact hx)) k
      simpa using hrec

theorem lookup_rows (conv : ℚ → Option ℚ) (l : Ledger) (L : List Nat) :
    L.Nodup → ∀ u : Nat,
      ((L.filterMap (fun v => (chainHead l v).map (fun h => (v, h.balance_after)))).map
          (fun p => (p.1, (conv p.2).getD 0))).lookup u
        = if u ∈ L then (chainHead l u).map (fun h => (conv h.balance_after).getD 0)
          else none := by
  induction L with
  | nil =>
    intro _ u
    simp
  | cons v rest ih =>
    intro hN u
    rw [List.nodup_cons] at hN
    by_cases hu : u = v
    · subst hu
      cases hch : chainHead l u with
      | none =>
        rw [List.filterMap_cons_none (by rw [hch]; rfl)]
        rw [ih hN.2 u]
        simp [hN.1, hch]
      | some h =>
        rw [List.filterMap_cons_some (by rw [hch]; rfl)]
        simp [List.lookup]
    · cases hch : chainHead l v with
      | none =>
        rw [List.filterMap_cons_none (by rw [hch]; rfl)]
        rw [ih hN.2 u]
        simp [hu]
      | some h =>
        rw [List.filterMap_cons_some (by rw [hch]; rfl)]
        simp only [List.map_cons, List.lookup]
        have hbeq : (u == v) = false := beq_eq_false_iff_ne.mpr hu
        rw [hbeq]
        rw [ih hN.2 u]
        simp [hu]

theorem lookup_get_users_balances_bulk (conv : ℚ → Option ℚ) (l : Ledger)
    (user_ids : List Nat) (u : Nat) :
    (get_users_balances_bulk conv l user_ids).lookup u =
      if u ∈ user_ids then (chainHead l u).map (fun h => (conv h.balance_after).getD 0)
      else none := by
  unfold get_users_balances_bulk bulkRows
  rw [lookup_rows conv l user_ids.dedup (List.nodup_dedup user_ids) u]
  simp [List.mem_dedup]

theorem uuid_byte_lt {u : UuidBytes} (hw : UuidWF u) {i : Nat} (hi : i < 16) :
    u.getD i 0 < 256 := by
  have hlen : i < u.length := by
    rw [hw.1]
    exact hi
  rw [List.getD_eq_getElem u 0 hlen]
  exact hw.2 (u.get ⟨i, hlen⟩) (List.getElem_mem hlen)

theorem fromBeBytes8_lt {b0 b1 b2 b3 b4 b5 b6 b7 : Nat}
    (h0 : b0 < 256) (h1 : b1 < 256) (h2 : b2 < 256) (h3 : b3 < 256)
    (h4 : b4 < 256) (h5 : b5 < 256) (h6 : b6 < 256) (h7 : b7 < 256) :
    fromBeBytes8 b0 b1 b2 b3 b4 b5 b6 b7 < 2 ^ 64 := by
  have he : (2 : Nat) ^ 64 = 18446744073709551616 := by norm_num
  rw [he]
  unfold fromBeBytes8
  omega

theorem toI64_inj {m n : Nat} (hm : m < 2 ^ 64) (hn : n < 2 ^ 64)
    (h : toI64 m = toI64 n) : m = n := by
  have he : (2 : Nat) ^ 64 = 18446744073709551616 := by norm_num
  have he2 : (2 : Int) ^ 64 = 18446744073709551616 := by norm_num
  have he3 : (2 : Nat) ^ 63 = 9223372036854775808 := by norm_num
  rw [he] at hm hn
  unfold toI64 at h
  rw [he2, he3] at h
  split at h <;> split at h <;> omega

theorem fromBeBytes8_inj {a0 a1 a2 a3 a4 a5 a6 a7 c0 c1 c2 c3 c4 c5 c6 c7 : Nat}
    (ha0 : a0 < 256) (ha1 : a1 < 256) (ha2 : a2 < 256) (ha3 : a3 < 256)
    (ha4 : a4 < 256) (ha5 : a5 < 256) (ha6 : a6 < 256) (ha7 : a7 < 256)
    (hc0 : c0 < 256) (hc1 : c1 < 256) (hc2 : c2 < 256) (hc3 : c3 < 256)
    (hc4 : c4 < 256) (hc5 : c5 < 256) (hc6 : c6 < 256) (hc7 : c7 < 256)
    (h : fromBeBytes8 a0 a1 a2 a3 a4 a5 a6 a7 = fromBeBytes8 c0 c1 c2 c3 c4 c5 c6 c7) :
    a0 = c0 ∧ a1 = c1 ∧ a2 = c2 ∧ a3 = c3 ∧ a4 = c4 ∧ a5 = c5 ∧ a6 = c6 ∧ a7 = c7 := by
  unfold fromBeBytes8 at h
  omega

/-!
Claim theorems. Each theorem corresponds to one claim of the specification.
-/

theorem sampleLedger_reachable : Reachable sampleLedger :=
  Reachable.create Reachable.nil
    (by refine ⟨?_, ?_⟩ <;> intro t ht <;> simp [userTxs] at ht)
    (by with_unfolding_all decide :
      create_transaction [] sampleGrantRequest 1 1 = Except.ok (sampleLedger, sampleGrantTx))

/-- C1: every successful `create_transaction` call returns and inserts a row whose
`balance_after` is the prior chain head's `balance_after` plus the amount for
`AdminGrant`/`Purchase` and minus the amount for `AdminRemoval`/`Usage` (the prior
balance counting as zero when the user has no prior transaction), and whose
`previous_transaction_id` is the prior head's id, or `none` when no prior
transaction exists. The prior chain head is characterized intrinsically: it is a
row of the user that sorts before every row of the user under the
`(created_at DESC, id DESC)` order, and it is `none` exactly when the user has
no rows. -/
theorem credits_create_transaction_balance_and_link
    (l : Ledger) (request : CreditTransactionCreateDBRequest) (newId now : Nat)
    (l2 : Ledger) (tx : CreditTransaction)
    (h : create_transaction l request newId now = Except.ok (l2, tx)) :
    l2 = tx :: l ∧
    (∀ h0, chainHead l request.user_id = some h0 →
      tx.previous_transaction_id = some h0.id ∧
      h0 ∈ userTxs l request.user_id ∧
      (∀ t ∈ userTxs l request.user_id, beforeTx h0 t = true) ∧
      tx.balance_after =
        (match request.transaction_type with
         | CreditTransactionType.AdminGrant | CreditTransactionType.Purchase =>
             h0.balance_after + request.amount
         | CreditTransactionType.AdminRemoval | CreditTransactionType.Usage =>
             h0.balance_after - request.amount)) ∧
    (chainHead l request.user_id = none →
      userTxs l request.user_id = [] ∧
      tx.previous_transaction_id = none ∧
      tx.balance_after =
        (match request.transaction_type with
         | CreditTransactionType.AdminGrant | CreditTransactionType.Purchase =>
             0 + request.amount
         | CreditTransactionType.AdminRemoval | CreditTransactionType.Usage =>
             0 - request.amount)) := by
  obtain ⟨hl2, hid, huser, htt, hamt, hdesc, hcre, hprev, hbal, hnn⟩ := create_ok_elim h
  refine ⟨hl2, ?_, ?_⟩
  · intro h0 hh0
    refine ⟨?_, (chainHead_spec hh0).1, (chainHead_spec hh0).2, ?_⟩
    · rw [hprev, hh0]
      rfl
    · rw [hbal]
      unfold attemptedBalance signedApply currentBalanceOf
      rw [hh0]
  · intro hnone
    refine ⟨chainHead_none_iff.mp hnone, ?_, ?_⟩
    · rw [hprev, hnone]
      rfl
    · rw [hbal]
      unfold attemptedBalance signedApply currentBalanceOf
      rw [hnone]

theorem credits_create_transaction_balance_and_link_witness :
    userTxs ([] : Ledger) sampleGrantRequest.user_id = [] ∧
      sampleGrantTx.previous_transaction_id = none ∧
      sampleGrantTx.balance_after = 0 + sampleGrantRequest.amount :=
  (credits_create_transaction_balance_and_link [] sampleGrantRequest 1 1 sampleLedger
      sampleGrantTx (by with_unfolding_all decide)).2.2 rfl

/-- C2: in every reachable ledger state each committed row has a non-negative
`balance_after`; and when an attempted `create_transaction` would write a negative
balance, the call returns the check-constraint rejection `DbError.CheckViolation`
(a business-rule error distinct from `DbError.Infrastructure`) and no `ok` result,
so no row is written — the caller's ledger state is untouched, reflecting the
atomic rollback of the enclosing database transaction. -/
theorem credits_no_negative_balances (l : Ledger)
    (request : CreditTransactionCreateDBRequest) (newId now : Nat) :
    (Reachable l → ∀ t ∈ l, 0 ≤ t.balance_after) ∧
    (attemptedBalance l request < 0 →
      create_transaction l request newId now = Except.error DbError.CheckViolation ∧
      (∀ l2 tx, create_transaction l request newId now ≠ Except.ok (l2, tx)) ∧
      DbError.CheckViolation ≠ DbError.Infrastructure) := by
  constructor
  · intro hr t ht
    exact (inv_of_reachable hr).2.1 t ht
  · intro hneg
    refine ⟨create_error_of_neg hneg, ?_, by decide⟩
    intro l2 tx hc
    rw [create_error_of_neg hneg] at hc
    cases hc

theorem credits_no_negative_balances_witness :
    (∀ t ∈ sampleLedger, 0 ≤ t.balance_after) ∧
      create_transaction [] sampleRemovalRequest 1 1 = Except.error DbError.CheckViolation :=
  ⟨(credits_no_negative_balances sampleLedger sampleRemovalRequest 1 1).1 sampleLedger_reachable,
   ((credits_no_negative_balances [] sampleRemovalRequest 1 1).2
       (by with_unfolding_all decide)).1⟩

/-- C3: in every reachable ledger state and for every user, walking the user's
chain from the head via `previous_transaction_id` with fuel equal to the number of
the user's rows visits exactly the user's rows (which are pairwise distinct, so
each exactly once), giving more fuel visits nothing further (the walk genuinely
terminates at the first transaction — no cycles), and consecutive rows of the
chain satisfy the back-pointer and signed balance equation `linked`. Reachability
is closed under every ledger operation: the reads do not modify the ledger and
`Reachable` is closed under successful appends by construction, so every ledger
operation preserves this invariant. -/
theorem credits_chain_integrity {l : Ledger} (hl : Reachable l) (u : Nat) :
    walk l (userTxs l u).length (chainHead l u) = userTxs l u ∧
    (∀ k : Nat, walk l ((userTxs l u).length + k) (chainHead l u) = userTxs l u) ∧
    (userTxs l u).Nodup ∧
    (userTxs l u).Chain' linked := by
  obtain ⟨hN, hpos, hchain⟩ := inv_of_reachable hl
  obtain ⟨hP, hC, hL⟩ := hchain u
  have hHead := chainHead_eq_head_of_pairwise hP
  have hsub : ∀ t ∈ userTxs l u, t ∈ l := by
    intro t ht
    unfold userTxs at ht
    exact List.mem_of_mem_filter ht
  have hwalk := walk_eq_of_chain hN (userTxs l u) hsub hC hL
  have h0 := hwalk 0
  rw [Nat.add_zero] at h0
  refine ⟨by rw [hHead]; exact h0, fun k => by rw [hHead]; exact hwalk k, ?_, hC⟩
  have hsubl : ((userTxs l u).map (fun t => t.id)).Sublist (l.map (fun t => t.id)) :=
    (List.filter_sublist l).map (fun t => t.id)
  exact (hN.sublist hsubl).of_map

theorem credits_chain_integrity_witness :
    walk sampleLedger (userTxs sampleLedger 0).length (chainHead sampleLedger 0) =
        userTxs sampleLedger 0 ∧
      (∀ k : Nat, walk sampleLedger ((userTxs sampleLedger 0).length + k)
          (chainHead sampleLedger 0) = userTxs sampleLedger 0) ∧
      (userTxs sampleLedger 0).Nodup ∧
      (userTxs sampleLedger 0).Chain' linked :=
  credits_chain_integrity sampleLedger_reachable 0

/-- C4 counterexample: the advisory-lock key is `i64::from_be_bytes` of only the
first 8 bytes of the user UUID, so two distinct well-formed UUIDs agreeing on
their first 8 bytes receive the same lock key — refuting the claim that lock keys
are equal only for equal user ids. -/
theorem lock_key_not_injective_counterexample :
    UuidWF uuidZero ∧ UuidWF uuidLastByteOne ∧ uuidZero ≠ uuidLastByteOne ∧
      lock_key uuidZero = lock_key uuidLastByteOne := by
  decide

/-- C4 amended: the lock key is a deterministic function of the user's UUID
(equal users always map to equal keys), and for well-formed UUIDs two lock keys
are equal exactly when the first 8 bytes of the UUIDs agree — so the same user
always maps to the same key, while distinct users share a key precisely when
their UUIDs agree on the first 8 bytes. -/
theorem lock_key_eq_iff_first_eight_bytes (u v : UuidBytes)
    (hu : UuidWF u) (hv : UuidWF v) :
    lock_key u = lock_key v ↔ ∀ i, i < 8 → u.getD i 0 = v.getD i 0 := by
  constructor
  · intro h
    have hb : ∀ i, i < 8 → u.getD i 0 < 256 := fun i hi => uuid_byte_lt hu (by omega)
    have hbv : ∀ i, i < 8 → v.getD i 0 < 256 := fun i hi => uuid_byte_lt hv (by omega)
    unfold lock_key at h
    have hfu := fromBeBytes8_lt (hb 0 (by norm_num)) (hb 1 (by norm_num))
      (hb 2 (by norm_num)) (hb 3 (by norm_num)) (hb 4 (by norm_num))
      (hb 5 (by norm_num)) (hb 6 (by norm_num)) (hb 7 (by norm_num))
    have hfv := fromBeBytes8_lt (hbv 0 (by norm_num)) (hbv 1 (by norm_num))
      (hbv 2 (by norm_num)) (hbv 3 (by norm_num)) (hbv 4 (by norm_num))
      (hbv 5 (by norm_num)) (hbv 6 (by norm_num)) (hbv 7 (by norm_num))
    have heq := toI64_inj hfu hfv h
    have hinj := fromBeBytes8_inj (hb 0 (by norm_num)) (hb 1 (by norm_num))
      (hb 2 (by norm_num)) (hb 3 (by norm_num)) (hb 4 (by norm_num))
      (hb 5 (by norm_num)) (hb 6 (by norm_num)) (hb 7 (by norm_num))
      (hbv 0 (by norm_num)) (hbv 1 (by norm_num)) (hbv 2 (by norm_num))
      (hbv 3 (by norm_num)) (hbv 4 (by norm_num)) (hbv 5 (by norm_num))
      (hbv 6 (by norm_num)) (hbv 7 (by norm_num)) heq
    intro i hi
    interval_cases i
    · exact hinj.1
    · exact hinj.2.1
    · exact hinj.2.2.1
    · exact hinj.2.2.2.1
    · exact hinj.2.2.2.2.1
    · exact hinj.2.2.2.2.2.1
    · exact hinj.2.2.2.2.2.2.1
    · exact hinj.2.2.2.2.2.2.2
  · intro h
    unfold lock_key
    rw [h 0 (by norm_num), h 1 (by norm_num), h 2 (by norm_num), h 3 (by norm_num),
      h 4 (by norm_num), h 5 (by norm_num), h 6 (by norm_num), h 7 (by norm_num)]

theorem lock_key_eq_iff_first_eight_bytes_witness :
    lock_key uuidZero = lock_key uuidLastByteOne ↔
      ∀ i, i < 8 → uuidZero.getD i 0 = uuidLastByteOne.getD i 0 :=
  lock_key_eq_iff_first_eight_bytes uuidZero uuidLastByteOne (by decide) (by decide)

/-- C5: `list_user_transactions l u k n` returns a slice of the user's rows sorted
most-recent-first by `(created_at DESC, id DESC)`: the sorted sequence is a
permutation of the user's rows and is sorted by the descending key order, the
`i`-th returned element (for `i < n`) is the `(k + i)`-th element of the sorted
sequence — i.e. the result is the `(k+1)`-th through `(k+n)`-th most recent
transactions — and `k` at or beyond the user's transaction count yields the empty
sequence. -/
theorem credits_list_user_transactions_pagination (l : Ledger) (u k n : Nat) :
    (sortedDesc (userTxs l u)).Perm (userTxs l u) ∧
    (sortedDesc (userTxs l u)).Pairwise (fun a b => beforeTx a b = true) ∧
    (∀ i, i < n →
      (list_user_transactions l u k n)[i]? = (sortedDesc (userTxs l u))[k + i]?) ∧
    (∀ i, n ≤ i → (list_user_transactions l u k n)[i]? = none) ∧
    ((userTxs l u).length ≤ k → list_user_transactions l u k n = []) := by
  refine ⟨sortedDesc_perm (userTxs l u), sortedDesc_pairwise (userTxs l u), ?_, ?_, ?_⟩
  · intro i hi
    unfold list_user_transactions
    rw [List.getElem?_take, if_pos hi, List.getElem?_drop]
  · intro i hi
    unfold list_user_transactions
    rw [List.getElem?_take, if_neg (by omega)]
  · intro hk
    unfold list_user_transactions
    have hlen : (sortedDesc (userTxs l u)).length ≤ k := by
      rw [(sortedDesc_perm (userTxs l u)).length_eq]
      exact hk
    rw [List.drop_eq_nil_of_le hlen]
    exact List.take_nil

theorem credits_list_user_transactions_pagination_witness :
    list_user_transactions sampleLedger 0 2 5 = [] ∧
      (list_user_transactions sampleLedger 0 0 1)[0]? =
        (sortedDesc (userTxs sampleLedger 0))[0 + 0]? :=
  ⟨(credits_list_user_transactions_pagination sampleLedger 0 2 5).2.2.2.2 (by decide),
   (credits_list_user_transactions_pagination sampleLedger 0 0 1).2.2.1 0 (by decide)⟩

/-- C6: when the stored-decimal-to-f64 conversion is exact, `get_users_balances_bulk`
maps each requested user with at least one transaction to exactly their chain
head's balance — the `balance_after` of the user's row that sorts before all the
user's rows under `(created_at DESC, id DESC)` — and a requested user with no
transactions is absent from the result map. -/
theorem credits_bulk_balances_heads (conv : ℚ → Option ℚ) (l : Ledger)
    (user_ids : List Nat) (u : Nat) (hconv : ∀ b, conv b = some b) :
    (∀ h, u ∈ user_ids → chainHead l u = some h →
      (get_users_balances_bulk conv l user_ids).lookup u = some h.balance_after ∧
      h ∈ userTxs l u ∧ ∀ t ∈ userTxs l u, beforeTx h t = true) ∧
    (userTxs l u = [] → (get_users_balances_bulk conv l user_ids).lookup u = none) := by
  constructor
  · intro h hu hh
    refine ⟨?_, (chainHead_spec hh).1, (chainHead_spec hh).2⟩
    rw [lookup_get_users_balances_bulk, if_pos hu, hh]
    simp [hconv]
  · intro hempty
    rw [lookup_get_users_balances_bulk]
    rw [chainHead_none_iff.mpr hempty]
    split <;> rfl

theorem credits_bulk_balances_heads_witness :
    (get_users_balances_bulk Option.some sampleLedger [0]).lookup 0 = some 100 ∧
      (get_users_balances_bulk Option.some sampleLedger [5]).lookup 5 = none :=
  ⟨((credits_bulk_balances_heads Option.some sampleLedger [0] 0 (fun b => rfl)).1
      sampleGrantTx (by decide) (by decide)).1,
   (credits_bulk_balances_heads Option.some sampleLedger [5] 5 (fun b => rfl)).2 (by decide)⟩

/-- C7: `get_user_balance` returns the `balance_after` of the user's chain head —
the row sorting before all the user's rows under `(created_at DESC, id DESC)` —
and zero when the user has no transactions (the head is `none` exactly then).
Repeated calls between writes are identical because the embedding of the read is
a pure function of the ledger state and does not modify it. -/
theorem credits_get_user_balance_head (l : Ledger) (u : Nat) :
    (∀ h, chainHead l u = some h →
      get_user_balance l u = h.balance_after ∧
      h ∈ userTxs l u ∧ ∀ t ∈ userTxs l u, beforeTx h t = true) ∧
    (userTxs l u = [] → get_user_balance l u = 0) ∧
    (chainHead l u = none ↔ userTxs l u = []) := by
  refine ⟨?_, ?_, chainHead_none_iff⟩
  · intro h hh
    refine ⟨?_, (chainHead_spec hh).1, (chainHead_spec hh).2⟩
    unfold get_user_balance
    rw [hh]
  · intro he
    unfold get_user_balance
    rw [chainHead_none_iff.mpr he]

theorem credits_get_user_balance_head_witness :
    get_user_balance sampleLedger 0 = 100 ∧ get_user_balance ([] : Ledger) 0 = 0 :=
  ⟨((credits_get_user_balance_head sampleLedger 0).1 sampleGrantTx (by decide)).1,
   (credits_get_user_balance_head [] 0).2.1 rfl⟩

/-- C8: a transaction-creation API request with `amount ≤ 0` is rejected with the
`BadRequest` validation error before the repository layer is invoked and can never
produce an `ok` result (so nothing is persisted for it); conversely every request
that reaches a successful outcome through the handler had `amount > 0`, so the
ledger only receives positive amounts at the API boundary. -/
theorem api_create_transaction_amount_validation (l : Ledger)
    (data : CreditTransactionCreate) (newId now : Nat) :
    (data.amount ≤ 0 →
      api_create_transaction l data newId now =
        Except.error (ApiError.BadRequest ("Amount must be greater than zero")) ∧
      ∀ l2 tx, api_create_transaction l data newId now ≠ Except.ok (l2, tx)) ∧
    (∀ l2 tx, api_create_transaction l data newId now = Except.ok (l2, tx) →
      0 < data.amount) := by
  constructor
  · intro hle
    have he : api_create_transaction l data newId now =
        Except.error (ApiError.BadRequest ("Amount must be greater than zero")) := by
      unfold api_create_transaction
      rw [if_pos hle]
    refine ⟨he, ?_⟩
    intro l2 tx hc
    rw [he] at hc
    cases hc
  · intro l2 tx hc
    by_contra hlt
    have hle : data.amount ≤ 0 := le_of_not_lt hlt
    unfold api_create_transaction at hc
    rw [if_pos hle] at hc
    cases hc

theorem api_create_transaction_amount_validation_witness :
    api_create_transaction [] sampleZeroApiRequest 1 1 =
      Except.error (ApiError.BadRequest ("Amount must be greater than zero")) :=
  ((api_create_transaction_amount_validation [] sampleZeroApiRequest 1 1).1
    (by with_unfolding_all decide)).1

/-- C9: the admin API transaction-type enum admits only `AdminGrant` and
`AdminRemoval`, the `From` mapping into the ledger's type sends `AdminGrant` to
`AdminGrant` and `AdminRemoval` to `AdminRemoval` (never `Purchase` or `Usage`),
and consequently every transaction created through the admin API handler has
type `AdminGrant` or `AdminRemoval`. -/
theorem api_admin_transaction_types_only (l : Ledger)
    (data : CreditTransactionCreate) (newId now : Nat) :
    ApiTransactionType.AdminGrant.toCredit = CreditTransactionType.AdminGrant ∧
    ApiTransactionType.AdminRemoval.toCredit = CreditTransactionType.AdminRemoval ∧
    (∀ t : ApiTransactionType,
      t.toCredit ≠ CreditTransactionType.Purchase ∧
        t.toCredit ≠ CreditTransactionType.Usage) ∧
    (∀ l2 tx, api_create_transaction l data newId now = Except.ok (l2, tx) →
      tx.transaction_type = CreditTransactionType.AdminGrant ∨
        tx.transaction_type = CreditTransactionType.AdminRemoval) := by
  refine ⟨rfl, rfl, ?_, ?_⟩
  · intro t
    cases t <;> exact ⟨by decide, by decide⟩
  · intro l2 tx hc
    simp only [api_create_transaction] at hc
    split at hc
    · cases hc
    · split at hc
      · rename_i pl ptx hcr
        rw [Except.ok.injEq, Prod.mk.injEq] at hc
        obtain ⟨h1, h2⟩ := hc
        subst h2
        have ht : ptx.transaction_type = data.transaction_type.toCredit :=
          (create_ok_elim hcr).2.2.2.1
        cases ha : data.transaction_type
        · rw [ha] at ht
          exact Or.inl (by rw [ht]; decide)
        · rw [ha] at ht
          exact Or.inr (by rw [ht]; decide)
      · rename_i e hcr
        cases hc

theorem api_admin_transaction_types_only_witness :
    sampleGrantTx.transaction_type = CreditTransactionType.AdminGrant ∨
      sampleGrantTx.transaction_type = CreditTransactionType.AdminRemoval :=
  (api_admin_transaction_types_only [] sampleApiGrantRequest 1 1).2.2.2 sampleLedger
    sampleGrantTx (by with_unfolding_all decide)

/-- C10: in `get_users_balances_bulk`, a requested user whose chain head's stored
balance fails the decimal-to-f64 conversion is mapped to `0.0` instead of the true
balance; the function is total, so no error is raised or propagated to the caller
for the conversion failure. -/
theorem bulk_balance_conversion_failure_defaults_zero (conv : ℚ → Option ℚ)
    (l : Ledger) (user_ids : List Nat) (u : Nat) (h : CreditTransaction)
    (hu : u ∈ user_ids) (hh : chainHead l u = some h)
    (hc : conv h.balance_after = none) :
    (get_users_balances_bulk conv l user_ids).lookup u = some 0 := by
  rw [lookup_get_users_balances_bulk, if_pos hu, hh]
  simp [hc]

theorem bulk_balance_conversion_failure_defaults_zero_witness :
    (get_users_balances_bulk (fun _ => none) sampleLedger [0]).lookup 0 = some 0 :=
  bulk_balance_conversion_failure_defaults_zero (fun _ => none) sampleLedger [0] 0
    sampleGrantTx (by decide) (by decide) rfl

end Waycast
